import Mathlib

/-!
Verification of the Bikera node/consensus/gossip core (the Python P2P draft
in `src/unnamed/part_002` and `src/unnamed/part_003`).

The embedding below translates the draft's pure data and control flow into
Lean: the VRF prove/verify pair, P2P message construction and the message-id
derivation, peer liveness, the inbound broadcast/direct dispatch paths of
`P2PNetworkLayer`, the seed construction and target-distance derivation of
`NetworkNode`, and the node bookkeeping of `DecentralizedNetwork`.

The external `cryptography` library primitives (ECDSA over secp256k1 and
SHA-256) are modelled as an abstract, executable record of functions
(`ECDSAModel`); the signature-scheme contract (a key's encoded public point
decodes back, and a signature made with a private key verifies under the
matching public point) is stated as the `Lawful` predicate.  Wall-clock
times are modelled as integers, the SHA-256 hex digest used for message ids
as an arbitrary function parameter, and the Python float `target_distance`
arithmetic as exact rational arithmetic.  Handler invocation is modelled by
the dispatch functions returning the list of messages handed to a
registered handler, so "the handler fires once" is "that list, summed over
a delivery sequence, has length one".
-/

namespace Bikera

/-! ## Definitions -/

/-- Network constant from part_003 line 46: minimum nodes for operation. -/
def MIN_NODES : Nat := 1

/-- Network constant from part_003 line 57: peer liveness timeout, seconds. -/
def PEER_TIMEOUT : Int := 30

/-- Model of the external ECDSA/SHA-256 primitives used by class `VRF`:
`sign` is `private_key.sign`, `pubOf` is `public_key.public_bytes` (X9.62
uncompressed-point encoding), `decodePoint` is
`EllipticCurvePublicKey.from_encoded_point` (`none` models the raised
decoding exception), `pointOf` is the abstract curve point of a private key,
`verifySig` is `public_key.verify` (returning `false` models the raised
`InvalidSignature`), and `sha256` is `hashlib.sha256(...).digest()`.
Keys, signatures and digests are byte lists; private keys and decoded
points are abstract naturals. -/
structure ECDSAModel where
  sign : Nat → List Nat → List Nat
  pubOf : Nat → List Nat
  pointOf : Nat → Nat
  decodePoint : List Nat → Option Nat
  verifySig : Nat → List Nat → List Nat → Bool
  sha256 : List Nat → List Nat

/-- The signature-scheme contract the external library provides: encoding a
public key and decoding it yields the key's curve point, and a signature
produced by `sign` verifies under the signer's point. -/
def ECDSAModel.Lawful (E : ECDSAModel) : Prop :=
  (∀ sk, E.decodePoint (E.pubOf sk) = some (E.pointOf sk)) ∧
  (∀ sk m, E.verifySig (E.pointOf sk) m (E.sign sk m) = true)

/-- Byte encoding of a string, modelling Python `str.encode('utf-8')`. -/
def strBytes (s : String) : List Nat := s.data.map Char.toNat

/-- Embedding of `VRFProof` dataclass (part_003 lines 90-97). -/
structure VRFProof where
  signature : List Nat
  hash_value : List Nat
  public_key : List Nat
  node_id : String
  seed : String
deriving DecidableEq

namespace VRF

/-- Embedding of `VRF.prove` (part_003 lines 170-181): sign `f"{seed}:{node_id}"`, set
`hash_value` to the SHA-256 digest of the signature bytes, and package the
signature, hash value, encoded public key, node id and seed. -/
def prove (E : ECDSAModel) (sk : Nat) (seed nodeIdArg : String) : VRFProof :=
  let message := strBytes (seed ++ ":" ++ nodeIdArg)
  let signature := E.sign sk message
  let hash_value := E.sha256 signature
  ⟨signature, hash_value, E.pubOf sk, nodeIdArg, seed⟩

/-- Embedding of `VRF.verify` (part_003 lines 183-202): reconstruct the public key
(`none` = decoding exception, caught, return `False`), verify the signature
over `f"{seed}:{node_id}"` (failure raises, caught, return `False`), then
compare the recomputed SHA-256 of the signature with the stored hash value.
The Python `try/except` returning `False` is modelled by totality: every
branch returns a `Bool`. -/
def verify (E : ECDSAModel) (proof : VRFProof) : Bool :=
  match E.decodePoint proof.public_key with
  | none => false
  | some pk =>
    let message := strBytes (proof.seed ++ ":" ++ proof.node_id)
    if E.verifySig pk message proof.signature then
      E.sha256 proof.signature == proof.hash_value
    else
      false

end VRF

/-- A concrete instance of the primitive model, used to evaluate the
verification theorems on closed inputs. -/
def toyECDSA : ECDSAModel where
  sign := fun sk m => sk :: m
  pubOf := fun sk => 4 :: [sk]
  pointOf := fun sk => sk
  decodePoint := fun l =>
    match l with
    | a :: [sk] => if a = 4 then some sk else none
    | _ => none
  verifySig := fun pk m sig => sig == pk :: m
  sha256 := fun l => [l.length % 256]

/-- Message-id derivation of `P2PMessage.__post_init__` (part_003 lines
110-115): the first 16 characters of the SHA-256 hex digest of
`f"{self.type}{self.sender_id}{self.timestamp}"`.  `H` models the
`hashlib.sha256(...).hexdigest()` composite; timestamps are modelled as
naturals rendered by `toString`. -/
def mkMessageId (H : String → String) (msgType senderId : String) (timestamp : Nat) : String :=
  (H (msgType ++ senderId ++ toString timestamp)).take 16

/-- Embedding of `P2PMessage` dataclass (part_003 lines 99-115); the `data` dict is
modelled as a key-value list. -/
structure P2PMessage where
  type : String
  sender_id : String
  recipient_id : String
  timestamp : Nat
  data : List (String × String)
  message_id : String
deriving DecidableEq

/-- Dataclass construction followed by `__post_init__`: an explicit
`message_id` is kept; `None` is replaced by the content-derived id. -/
def mkP2PMessage (H : String → String) (msgType senderId recipientId : String)
    (timestamp : Nat) (payload : List (String × String)) (mid : Option String) : P2PMessage :=
  match mid with
  | some m => ⟨msgType, senderId, recipientId, timestamp, payload, m⟩
  | none => ⟨msgType, senderId, recipientId, timestamp, payload,
      mkMessageId H msgType senderId timestamp⟩

/-- Embedding of `PeerInfo` dataclass (part_003 lines 117-130). -/
structure PeerInfo where
  node_id : String
  address : String
  port : Nat
  last_seen : Int
  public_key : Option (List Nat) := none
  is_authority : Bool := false
deriving DecidableEq

/-- Embedding of `PeerInfo.is_alive` (part_003 lines 128-129): alive iff
`(time.time() - last_seen) < PEER_TIMEOUT`; the current wall-clock time is
an explicit argument. -/
def PeerInfo.is_alive (p : PeerInfo) (now : Int) : Bool :=
  decide (now - p.last_seen < PEER_TIMEOUT)

/-- Embedding of `P2PNetworkLayer.get_active_peers` (part_003 lines 473-475): the peers
satisfying the liveness predicate, evaluated at the given call time. -/
def get_active_peers (peers : List PeerInfo) (now : Int) : List PeerInfo :=
  peers.filter (fun p => p.is_alive now)

/-- The fields of a deserialized inbound message that the dispatch paths
inspect (`json.loads` result in `_handle_broadcast_message` /
`_handle_direct_message`). -/
structure MsgData where
  type : String
  sender_id : String
  message_id : String
  timestamp : Nat
deriving DecidableEq

/-- The mutable state of `P2PNetworkLayer` touched by inbound dispatch:
own node id, peer table, the set of message types with a registered
handler, and the `seen_messages` id set. -/
structure NetLayerState where
  node_id : String
  peers : List PeerInfo
  handlers : List String
  seen_messages : List String
deriving DecidableEq

/-- The `last_seen` refresh both dispatch paths perform for a sender
already present in the peer table. -/
def touchPeer (peers : List PeerInfo) (senderId : String) (now : Int) : List PeerInfo :=
  peers.map fun p => if p.node_id = senderId then { p with last_seen := now } else p

/-- Embedding of `P2PNetworkLayer._handle_broadcast_message` (part_003 lines 377-405):
discard own messages, discard already-seen message ids, otherwise record
the id as seen, refresh the sender's `last_seen`, and hand the message to
the registered handler for its type if one exists.  The second component
lists the messages handed to a handler. -/
def handle_broadcast (s : NetLayerState) (now : Int) (md : MsgData) :
    NetLayerState × List MsgData :=
  if md.sender_id = s.node_id then (s, [])
  else if md.message_id ∈ s.seen_messages then (s, [])
  else
    let s1 : NetLayerState :=
      { s with seen_messages := md.message_id :: s.seen_messages,
               peers := touchPeer s.peers md.sender_id now }
    if md.type ∈ s1.handlers then (s1, [md]) else (s1, [])

/-- Embedding of `P2PNetworkLayer._handle_direct_message` (part_003 lines 407-424):
refresh the sender's `last_seen` (keyed by the transport-frame sender id)
and hand the message to the registered handler for its type if one exists.
The source performs no self-sender check and no `seen_messages` check on
this path. -/
def handle_direct (s : NetLayerState) (now : Int) (frameSenderId : String) (md : MsgData) :
    NetLayerState × List MsgData :=
  let s1 : NetLayerState := { s with peers := touchPeer s.peers frameSenderId now }
  if md.type ∈ s1.handlers then (s1, [md]) else (s1, [])

/-- Which inbound path `_message_processor` (part_003 lines 357-375)
delivers an envelope on: the subscriber (broadcast) socket, or the router
(direct) socket together with the transport-frame sender id. -/
inductive DeliveryPath where
  | viaBroadcast : DeliveryPath
  | viaDirect : String → DeliveryPath
deriving DecidableEq

/-- One delivery of a deserialized message on the given path. -/
def deliver (s : NetLayerState) (now : Int) (md : MsgData) :
    DeliveryPath → NetLayerState × List MsgData
  | DeliveryPath.viaBroadcast => handle_broadcast s now md
  | DeliveryPath.viaDirect frame => handle_direct s now frame md

/-- Deliver the same message along a sequence of paths (network fan-out),
returning the final state and the total number of handler invocations. -/
def deliverAll (s : NetLayerState) (now : Int) (md : MsgData) :
    List DeliveryPath → NetLayerState × Nat
  | [] => (s, 0)
  | d :: rest =>
    let step := deliver s now md d
    let restOut := deliverAll step.1 now md rest
    (restOut.1, step.2.length + restOut.2)

/-- Seed string of `NetworkNode.generate_distance_proposal` (part_003
line 597): `f"distance_round_{round_number}_{last_block_hash}"`. -/
def distanceSeed (roundNumber : Nat) (lastBlockHash : String) : String :=
  "distance_round_" ++ toString roundNumber ++ "_" ++ lastBlockHash

/-- Seed string of `NetworkNode.generate_mining_proposal` (part_003
line 643):
`f"mining_round_{round_number}_{last_block_hash}_{winner_data['user_id']}"`. -/
def miningSeed (roundNumber : Nat) (lastBlockHash userId : String) : String :=
  "mining_round_" ++ toString roundNumber ++ "_" ++ lastBlockHash ++ "_" ++ userId

/-- Big-endian unsigned integer reading of a byte list, modelling
`int.from_bytes(bytes, byteorder='big')`. -/
def bytesToNatBE (l : List Nat) : Nat :=
  l.foldl (fun acc b => acc * 256 + b) 0

/-- Target-distance derivation of `generate_distance_proposal` (part_003
lines 601-602): interpret the first 4 bytes of the proof's hash value
big-endian and map by `0.1 + (hash_int % 9900) / 1000.0`, in exact
rational arithmetic. -/
def targetDistanceOf (hashValue : List Nat) : ℚ :=
  1 / 10 + ((bytesToNatBE (hashValue.take 4) % 9900 : ℕ) : ℚ) / 1000

/-- Embedding of `DistanceProposal` dataclass (part_003 lines 132-139), with the float
target distance as a rational and the timestamp as an integer. -/
structure DistanceProposal where
  node_id : String
  vrf_proof : VRFProof
  target_distance : ℚ
  round_number : Nat
  timestamp : Int
deriving DecidableEq

/-- The `winner_data` dict passed to `generate_mining_proposal`: its
`'user_id'` entry (read for the seed) plus the remaining payload. -/
structure WinnerData where
  user_id : String
  payload : List (String × String)
deriving DecidableEq

/-- Embedding of `BlockProposal` dataclass (part_003 lines 141-148). -/
structure BlockProposal where
  node_id : String
  vrf_proof : VRFProof
  block_data : WinnerData
  round_number : Nat
  timestamp : Int
deriving DecidableEq

/-- Embedding of `NetworkNode.generate_distance_proposal` (part_003 lines 595-615):
build the round seed, call `VRF.prove`, derive the target distance from
the proof's hash value, and package the proposal.  (The fire-and-forget
broadcast task the source also spawns carries no return value.) -/
def generate_distance_proposal (E : ECDSAModel) (sk : Nat) (selfId : String)
    (roundNumber : Nat) (lastBlockHash : String) (now : Int) : DistanceProposal :=
  let seed := distanceSeed roundNumber lastBlockHash
  let vrf_proof := VRF.prove E sk seed selfId
  let hash_int := bytesToNatBE (vrf_proof.hash_value.take 4)
  let target_distance : ℚ := 1 / 10 + ((hash_int % 9900 : ℕ) : ℚ) / 1000
  ⟨selfId, vrf_proof, target_distance, roundNumber, now⟩

/-- Embedding of `NetworkNode.generate_mining_proposal` (part_003 lines 641-657). -/
def generate_mining_proposal (E : ECDSAModel) (sk : Nat) (selfId : String)
    (roundNumber : Nat) (winnerData : WinnerData) (lastBlockHash : String)
    (now : Int) : BlockProposal :=
  let seed := miningSeed roundNumber lastBlockHash winnerData.user_id
  let vrf_proof := VRF.prove E sk seed selfId
  ⟨selfId, vrf_proof, winnerData, roundNumber, now⟩

/-- A node record as `DecentralizedNetwork` tracks it: its id and whether
it is the locally-owned node. -/
structure NodeRec where
  node_id : String
  is_local : Bool
deriving DecidableEq

/-- The node bookkeeping of `DecentralizedNetwork` (part_003 lines
701-717): the local node id and the `nodes` table. -/
structure DNetState where
  local_node_id : String
  nodes : List NodeRec
deriving DecidableEq

/-- Embedding of `DecentralizedNetwork.__init__`: the table starts holding exactly the
local node. -/
def initialDNet (localId : String) : DNetState :=
  ⟨localId, [⟨localId, true⟩]⟩

/-- Embedding of `DecentralizedNetwork.add_node` (part_003 lines 752-758): insert a
remote node record unless the id is already present. -/
def add_node (s : DNetState) (nodeId : String) : DNetState :=
  if s.nodes.any (fun n => n.node_id = nodeId) then s
  else ⟨s.local_node_id, s.nodes ++ [⟨nodeId, false⟩]⟩

/-- Embedding of `DecentralizedNetwork.remove_node` (part_003 lines 760-764): delete
the record unless it is the local node. -/
def remove_node (s : DNetState) (nodeId : String) : DNetState :=
  if nodeId = s.local_node_id then s
  else ⟨s.local_node_id, s.nodes.filter (fun n => n.node_id ≠ nodeId)⟩

/-- Embedding of `DecentralizedNetwork.get_active_nodes` (part_003 lines 766-786): the
local node is always active; a remote node is active iff its id appears in
the local node's active-peer list (passed here as the id list computed
from `get_active_peers`). -/
def get_active_nodes (s : DNetState) (activePeerIds : List String) : List NodeRec :=
  s.nodes.filter (fun n => n.is_local || activePeerIds.contains n.node_id)

/-- States of `DecentralizedNetwork` reachable from construction through
its node-table operations. -/
inductive DNetReachable : DNetState → Prop where
  | init (localId : String) : DNetReachable (initialDNet localId)
  | add (s : DNetState) (nodeId : String) :
      DNetReachable s → DNetReachable (add_node s nodeId)
  | remove (s : DNetState) (nodeId : String) :
      DNetReachable s → DNetReachable (remove_node s nodeId)

/-- Embedding of `DecentralizedNetwork.select_distance_generator` (part_003 lines
788-795): under the distance-consensus lock, compute the active nodes and
return `None` when fewer than `MIN_NODES` are active.  Modelled from the
spec: the success branch — the source file is truncated immediately after
the gate — returns the coordinator's own generated proposal, per §4.5 of
the specification ("drive proposal generation ... and return the
coordinator's own proposal"). -/
def select_distance_generator (E : ECDSAModel) (sk : Nat) (s : DNetState)
    (activePeerIds : List String) (roundNumber : Nat) (lastBlockHash : String)
    (now : Int) : Option DistanceProposal :=
  if (get_active_nodes s activePeerIds).length < MIN_NODES then none
  else some (generate_distance_proposal E sk s.local_node_id roundNumber lastBlockHash now)

/-- Decimal value of a digit character, used to invert `Nat.digitChar`. -/
def charVal (c : Char) : Nat := c.toNat - 48

/-- Left fold reading a decimal digit string back as a number. -/
def listValFrom (a : Nat) (l : List Char) : Nat :=
  l.foldl (fun x c => x * 10 + charVal c) a

/-- Concrete dispatch state for closed evaluations: node `node_a` with a
handler registered for type `t` and nothing seen yet. -/
def sampleNetState : NetLayerState := ⟨"node_a", [], ["t"], []⟩

/-- A message of type `t` from peer `node_b`. -/
def sampleMsg : MsgData := ⟨"t", "node_b", "m1", 5⟩

/-- A message of type `t` whose sender id is `node_a` itself. -/
def sampleSelfMsg : MsgData := ⟨"t", "node_a", "m2", 5⟩

/-- A peer record last seen at time 0. -/
def samplePeer : PeerInfo := ⟨"node_b", "127.0.0.1", 8333, 0, none, false⟩

/-! ## Theorems -/

theorem toyECDSA_lawful : toyECDSA.Lawful := by
  constructor
  · intro sk; rfl
  · intro sk m
    simp [toyECDSA]

/-- C2: for every seed string and node id (and every lawful model of the
curve primitives and any private key), `Verify (Prove seed nodeId)` returns
`true`: the signature made over `seed:node_id` verifies under the packaged
public key, and the recomputed SHA-256 of the signature equals the stored
hash value. -/
theorem vrf_verify_prove (E : ECDSAModel) (hE : E.Lawful) (sk : Nat)
    (seed nodeIdArg : String) :
    VRF.verify E (VRF.prove E sk seed nodeIdArg) = true := by
  unfold VRF.verify VRF.prove
  simp only [hE.1, hE.2, if_true]
  simp

/-- Witness for C2: the round-trip evaluated on concrete inputs. -/
theorem vrf_verify_prove_witness :
    VRF.verify toyECDSA (VRF.prove toyECDSA 7 "distance_round_1_genesis" "node_a") = true :=
  vrf_verify_prove toyECDSA toyECDSA_lawful 7 "distance_round_1_genesis" "node_a"

/-- C3: `VRF.verify` returns `false` on every failing input: a public key
whose bytes do not decode to a curve point, a signature that does not verify
under the decoded point, or a stored hash value differing from the SHA-256
of the signature.  (It never raises: `verify` is a total function into
`Bool`, modelling the source's `try/except` that converts every exception
into `False`.) -/
theorem vrf_verify_false_on_failure (E : ECDSAModel) (proof : VRFProof)
    (h : E.decodePoint proof.public_key = none ∨
      (∃ pk, E.decodePoint proof.public_key = some pk ∧
        E.verifySig pk (strBytes (proof.seed ++ ":" ++ proof.node_id)) proof.signature = false) ∨
      (∃ pk, E.decodePoint proof.public_key = some pk ∧
        E.sha256 proof.signature ≠ proof.hash_value)) :
    VRF.verify E proof = false := by
  unfold VRF.verify
  rcases h with h | ⟨pk, hpk, hv⟩ | ⟨pk, hpk, hne⟩
  · rw [h]
  · rw [hpk]
    simp only [hv]
    simp
  · rw [hpk]
    by_cases hsig :
        E.verifySig pk (strBytes (proof.seed ++ ":" ++ proof.node_id)) proof.signature = true
    · simp only [hsig, if_true]
      simpa using hne
    · simp only [Bool.not_eq_true] at hsig
      simp [hsig]

/-- Witness for C3: a proof whose public-key bytes are malformed (empty)
is rejected. -/
theorem vrf_verify_false_on_failure_witness :
    VRF.verify toyECDSA ⟨[1, 2], [3], [], "n", "s"⟩ = false :=
  vrf_verify_false_on_failure toyECDSA ⟨[1, 2], [3], [], "n", "s"⟩ (Or.inl rfl)

/-- C6: a `P2PMessage` constructed without an explicit id gets an id that
agrees between any two messages sharing the `(type, sender, timestamp)`
triple, and that equals `mkMessageId` applied to exactly that triple — no
other field (recipient, payload) enters the derivation. -/
theorem message_id_deterministic (H : String → String) (msgType senderId : String)
    (ts : Nat) (rcp1 rcp2 : String) (d1 d2 : List (String × String)) :
    (mkP2PMessage H msgType senderId rcp1 ts d1 none).message_id
      = (mkP2PMessage H msgType senderId rcp2 ts d2 none).message_id
    ∧ (mkP2PMessage H msgType senderId rcp1 ts d1 none).message_id
      = mkMessageId H msgType senderId ts := by
  constructor
  · simp [mkP2PMessage]
  · simp [mkP2PMessage]

/-- C7: `get_active_peers` returns exactly the peers satisfying
`(now - last_seen) < PEER_TIMEOUT` at the given call time; in particular a
peer last touched at `last_seen` is in the result for call times before
`last_seen + PEER_TIMEOUT` and absent at or after that instant. -/
theorem get_active_peers_spec (peers : List PeerInfo) (now : Int) (p : PeerInfo) :
    (p ∈ get_active_peers peers now ↔ p ∈ peers ∧ now - p.last_seen < PEER_TIMEOUT)
    ∧ (p ∈ peers → now < p.last_seen + PEER_TIMEOUT → p ∈ get_active_peers peers now)
    ∧ (p.last_seen + PEER_TIMEOUT ≤ now → p ∉ get_active_peers peers now) := by
  have hiff : p ∈ get_active_peers peers now ↔
      p ∈ peers ∧ now - p.last_seen < PEER_TIMEOUT := by
    simp [get_active_peers, PeerInfo.is_alive, List.mem_filter]
  refine ⟨hiff, ?_, ?_⟩
  · intro hp hlt
    exact hiff.mpr ⟨hp, by omega⟩
  · intro hge hmem
    have hlt := (hiff.mp hmem).2
    omega

/-- Witness for C7: a peer touched at time 0 is active at time 10. -/
theorem get_active_peers_spec_witness :
    samplePeer ∈ get_active_peers [samplePeer] 10 :=
  (get_active_peers_spec [samplePeer] 10 samplePeer).2.1
    (List.mem_singleton.mpr rfl) (by decide)

theorem targetDistanceOf_bounds (hv : List Nat) :
    1 / 10 ≤ targetDistanceOf hv ∧ targetDistanceOf hv < 10 := by
  unfold targetDistanceOf
  have hk99 : bytesToNatBE (hv.take 4) % 9900 ≤ 9899 := by
    have := Nat.mod_lt (bytesToNatBE (hv.take 4)) (show 0 < 9900 by norm_num)
    omega
  have hkq : ((bytesToNatBE (hv.take 4) % 9900 : ℕ) : ℚ) ≤ 9899 := by exact_mod_cast hk99
  have hkq0 : (0 : ℚ) ≤ ((bytesToNatBE (hv.take 4) % 9900 : ℕ) : ℚ) := by positivity
  constructor
  · linarith
  · linarith

/-- C8: `generate_distance_proposal` derives its target distance as
`0.1 + (h % 9900) / 1000` where `h` is the big-endian reading of the first
4 bytes of the VRF proof's hash value, so for every round number and
previous block hash the target distance lies in `[0.1, 10.0)`. -/
theorem generate_distance_proposal_bounds (E : ECDSAModel) (sk : Nat)
    (selfId : String) (roundNumber : Nat) (lastBlockHash : String) (now : Int) :
    (generate_distance_proposal E sk selfId roundNumber lastBlockHash now).target_distance
      = targetDistanceOf
          (VRF.prove E sk (distanceSeed roundNumber lastBlockHash) selfId).hash_value
    ∧ 1 / 10 ≤
        (generate_distance_proposal E sk selfId roundNumber lastBlockHash now).target_distance
    ∧ (generate_distance_proposal E sk selfId roundNumber lastBlockHash now).target_distance
        < 10 := by
  have h := targetDistanceOf_bounds
    (VRF.prove E sk (distanceSeed roundNumber lastBlockHash) selfId).hash_value
  have heq : (generate_distance_proposal E sk selfId roundNumber lastBlockHash now).target_distance
      = targetDistanceOf
          (VRF.prove E sk (distanceSeed roundNumber lastBlockHash) selfId).hash_value := by
    simp [generate_distance_proposal, targetDistanceOf]
  refine ⟨heq, ?_, ?_⟩
  · rw [heq]; exact h.1
  · rw [heq]; exact h.2

theorem digitChar_ne_underscore (d : Nat) : Nat.digitChar d ≠ '_' := by
  rcases Nat.lt_or_ge d 16 with h | h
  · interval_cases d <;> decide
  · unfold Nat.digitChar
    repeat rw [if_neg (by omega)]
    decide

theorem toDigitsCore_mem (b : Nat) :
    ∀ (fuel n : Nat) (acc : List Char) (c : Char),
      c ∈ Nat.toDigitsCore b fuel n acc → c ∈ acc ∨ ∃ d, c = Nat.digitChar d := by
  intro fuel
  induction fuel with
  | zero =>
    intro n acc c h
    simp only [Nat.toDigitsCore] at h
    exact Or.inl h
  | succ fuel ih =>
    intro n acc c h
    simp only [Nat.toDigitsCore] at h
    by_cases hnb : n / b = 0
    · rw [if_pos hnb] at h
      rcases List.mem_cons.mp h with h1 | h1
      · exact Or.inr ⟨n % b, h1⟩
      · exact Or.inl h1
    · rw [if_neg hnb] at h
      rcases ih _ _ _ h with h1 | h1
      · rcases List.mem_cons.mp h1 with h2 | h2
        · exact Or.inr ⟨n % b, h2⟩
        · exact Or.inl h2
      · exact Or.inr h1

theorem repr_no_underscore (n : Nat) : '_' ∉ (toString n).data := by
  intro hmem
  have heq : (toString n).data = Nat.toDigits 10 n := rfl
  rw [heq] at hmem
  rcases toDigitsCore_mem 10 _ _ _ _ hmem with h | ⟨d, hd⟩
  · exact absurd h (List.not_mem_nil _)
  · exact digitChar_ne_underscore d hd.symm

theorem append_underscore_inj :
    ∀ (a b r1 r2 : List Char), '_' ∉ a → '_' ∉ b →
      a ++ '_' :: r1 = b ++ '_' :: r2 → a = b ∧ r1 = r2 := by
  intro a
  induction a with
  | nil =>
    intro b r1 r2 _ hb h
    cases b with
    | nil => simp_all
    | cons x xs =>
      simp only [List.nil_append, List.cons_append, List.cons.injEq] at h
      exact absurd (h.1 ▸ List.mem_cons_self x xs) hb
  | cons x xs ih =>
    intro b r1 r2 ha hb h
    cases b with
    | nil =>
      simp only [List.cons_append, List.nil_append, List.cons.injEq] at h
      exact absurd (h.1.symm ▸ List.mem_cons_self x xs) ha
    | cons y ys =>
      simp only [List.cons_append, List.cons.injEq] at h
      obtain ⟨hxy, htail⟩ := h
      have ha2 : '_' ∉ xs := fun hm => ha (List.mem_cons_of_mem _ hm)
      have hb2 : '_' ∉ ys := fun hm => hb (List.mem_cons_of_mem _ hm)
      obtain ⟨he, hr⟩ := ih ys r1 r2 ha2 hb2 htail
      exact ⟨by rw [hxy, he], hr⟩

theorem charVal_digitChar (d : Nat) (hd : d < 10) : charVal (Nat.digitChar d) = d := by
  interval_cases d <;> decide

theorem toDigitsCore_append :
    ∀ (fuel n : Nat) (acc : List Char),
      Nat.toDigitsCore 10 fuel n acc = Nat.toDigitsCore 10 fuel n [] ++ acc := by
  intro fuel
  induction fuel with
  | zero => intro n acc; simp [Nat.toDigitsCore]
  | succ fuel ih =>
    intro n acc
    simp only [Nat.toDigitsCore]
    by_cases hnb : n / 10 = 0
    · rw [if_pos hnb, if_pos hnb]
      simp
    · rw [if_neg hnb, if_neg hnb]
      rw [ih (n / 10) ((n % 10).digitChar :: acc), ih (n / 10) [(n % 10).digitChar]]
      simp

theorem listValFrom_append (a : Nat) (l1 l2 : List Char) :
    listValFrom a (l1 ++ l2) = listValFrom (listValFrom a l1) l2 := by
  simp [listValFrom, List.foldl_append]

theorem toDigitsCore_val :
    ∀ (fuel n : Nat), n < fuel → listValFrom 0 (Nat.toDigitsCore 10 fuel n []) = n := by
  intro fuel
  induction fuel with
  | zero => intro n h; omega
  | succ fuel ih =>
    intro n h
    simp only [Nat.toDigitsCore]
    by_cases hnb : n / 10 = 0
    · rw [if_pos hnb]
      simp [listValFrom, charVal_digitChar (n % 10) (Nat.mod_lt _ (by norm_num))]
      omega
    · rw [if_neg hnb]
      rw [toDigitsCore_append fuel (n / 10) [(n % 10).digitChar]]
      rw [listValFrom_append]
      have hlt : n / 10 < fuel := by
        have h1 : n / 10 < n := Nat.div_lt_self (by omega) (by norm_num)
        omega
      rw [ih (n / 10) hlt]
      simp [listValFrom, charVal_digitChar (n % 10) (Nat.mod_lt _ (by norm_num))]
      omega

theorem natRepr_data_inj (r1 r2 : Nat)
    (h : (toString r1).data = (toString r2).data) : r1 = r2 := by
  have h1 : (toString r1).data = Nat.toDigitsCore 10 (r1 + 1) r1 [] := rfl
  have h2 : (toString r2).data = Nat.toDigitsCore 10 (r2 + 1) r2 [] := rfl
  have v1 := toDigitsCore_val (r1 + 1) r1 (by omega)
  have v2 := toDigitsCore_val (r2 + 1) r2 (by omega)
  rw [← h1] at v1
  rw [← h2] at v2
  rw [h] at v1
  omega

theorem underscoreData : ("_" : String).data = ['_'] := rfl

/-- Counterexample for C9: the mining-seed format
`f"mining_round_{r}_{hash}_{user_id}"` is not injective in
`(hash, user_id)` — a previous block hash containing an underscore shifts
content into the user-id slot, so two different `(hash, user_id)` pairs
produce the same seed. -/
theorem seed_binding_counterexample :
    miningSeed 1 "h_u" "x" = miningSeed 1 "h" "u_x"
    ∧ ¬ ("h_u" = "h" ∧ "x" = "u_x") := by
  constructor
  · rfl
  · decide

/-- C9 amended: the distance seed determines its round number and previous
block hash; the mining seed determines its round number, previous block
hash and winner user id provided the block hashes contain no underscore
(without that restriction the counterexample above refutes injectivity);
and a distance seed never equals a mining seed. -/
theorem seed_binding :
    (∀ (r1 r2 : Nat) (a1 a2 : String),
      distanceSeed r1 a1 = distanceSeed r2 a2 → r1 = r2 ∧ a1 = a2)
    ∧ (∀ (r1 r2 : Nat) (a1 a2 u1 u2 : String), '_' ∉ a1.data → '_' ∉ a2.data →
      miningSeed r1 a1 u1 = miningSeed r2 a2 u2 → r1 = r2 ∧ a1 = a2 ∧ u1 = u2)
    ∧ (∀ (r1 r2 : Nat) (a1 a2 u2 : String), distanceSeed r1 a1 ≠ miningSeed r2 a2 u2) := by
  refine ⟨?_, ?_, ?_⟩
  · intro r1 r2 a1 a2 heq
    have hd := congrArg String.data heq
    simp only [distanceSeed, String.data_append, List.append_assoc, underscoreData,
      List.singleton_append] at hd
    have htail := List.append_cancel_left hd
    obtain ⟨hr, ha⟩ :=
      append_underscore_inj _ _ _ _ (repr_no_underscore r1) (repr_no_underscore r2) htail
    exact ⟨natRepr_data_inj r1 r2 hr, String.ext ha⟩
  · intro r1 r2 a1 a2 u1 u2 ha1 ha2 heq
    have hd := congrArg String.data heq
    simp only [miningSeed, String.data_append, List.append_assoc, underscoreData,
      List.singleton_append] at hd
    have htail := List.append_cancel_left hd
    obtain ⟨hr, hrest⟩ :=
      append_underscore_inj _ _ _ _ (repr_no_underscore r1) (repr_no_underscore r2) htail
    obtain ⟨hh, hu⟩ := append_underscore_inj _ _ _ _ ha1 ha2 hrest
    exact ⟨natRepr_data_inj r1 r2 hr, String.ext hh, String.ext hu⟩
  · intro r1 r2 a1 a2 u2 heq
    have hda : (distanceSeed r1 a1).data.headD 'z' = 'd' := rfl
    rw [heq] at hda
    have hmb : (miningSeed r2 a2 u2).data.headD 'z' = 'm' := rfl
    rw [hmb] at hda
    exact absurd hda (by decide)

/-- Witness for C9's amended theorem: mining-seed injectivity evaluated at
concrete underscore-free hashes. -/
theorem seed_binding_witness :
    (1 : Nat) = 1 ∧ ("abc" : String) = "abc" ∧ ("u_1" : String) = "u_1" :=
  seed_binding.2.1 1 1 "abc" "abc" "u_1" "u_1" (by decide) (by decide) rfl

theorem handle_broadcast_seen (s : NetLayerState) (now : Int) (md : MsgData)
    (h : md.message_id ∈ s.seen_messages) : handle_broadcast s now md = (s, []) := by
  unfold handle_broadcast
  by_cases hs : md.sender_id = s.node_id
  · rw [if_pos hs]
  · rw [if_neg hs, if_pos h]

theorem deliverAll_broadcast_seen (now : Int) (md : MsgData) :
    ∀ (n : Nat) (s : NetLayerState), md.message_id ∈ s.seen_messages →
      (deliverAll s now md (List.replicate n DeliveryPath.viaBroadcast)).2 = 0 := by
  intro n
  induction n with
  | zero => intro s h; rfl
  | succ n ih =>
    intro s h
    simp only [List.replicate_succ, deliverAll, deliver]
    rw [handle_broadcast_seen s now md h]
    simpa using ih s h

/-- Counterexample for C1: two deliveries of the same envelope on the
direct path invoke the registered handler twice — the `seen_messages`
dedup check is absent from `_handle_direct_message`, so the dedup
invariant does not apply uniformly to broadcast and direct dispatch. -/
theorem dedup_counterexample :
    (deliverAll sampleNetState 0 sampleMsg
        [DeliveryPath.viaDirect "node_b", DeliveryPath.viaDirect "node_b"]).2 = 2
    ∧ (deliverAll sampleNetState 0 sampleMsg
        [DeliveryPath.viaDirect "node_b", DeliveryPath.viaDirect "node_b"]).2 ≠ 1 := by
  constructor
  · decide
  · decide

/-- C1 amended: deduplication holds on the broadcast path — for an
envelope from another node, not yet seen, whose type has a registered
handler, delivering it N ≥ 1 times on the broadcast path invokes the
handler exactly once (the direct path performs no dedup check; see the
counterexample). -/
theorem dedup_broadcast_exactly_once (s : NetLayerState) (now : Int) (md : MsgData)
    (n : Nat) (hsender : md.sender_id ≠ s.node_id)
    (hseen : md.message_id ∉ s.seen_messages)
    (hhandler : md.type ∈ s.handlers) :
    (deliverAll s now md (List.replicate (n + 1) DeliveryPath.viaBroadcast)).2 = 1 := by
  simp only [List.replicate_succ, deliverAll, deliver]
  have hfirst : handle_broadcast s now md =
      ({ s with seen_messages := md.message_id :: s.seen_messages,
                peers := touchPeer s.peers md.sender_id now }, [md]) := by
    unfold handle_broadcast
    rw [if_neg hsender, if_neg hseen, if_pos hhandler]
  rw [hfirst]
  have hrest := deliverAll_broadcast_seen now md n
    { s with seen_messages := md.message_id :: s.seen_messages,
             peers := touchPeer s.peers md.sender_id now }
    (List.mem_cons_self _ _)
  simpa using hrest

/-- Witness for C1's amended theorem: three broadcast deliveries of one
envelope, one handler invocation. -/
theorem dedup_broadcast_exactly_once_witness :
    (deliverAll sampleNetState 0 sampleMsg
        (List.replicate 3 DeliveryPath.viaBroadcast)).2 = 1 :=
  dedup_broadcast_exactly_once sampleNetState 0 sampleMsg 2
    (by decide) (by decide) (by decide)

/-- Counterexample for C5: an envelope whose sender id equals the node's
own id, delivered on the direct path, is still handed to the registered
handler — `_handle_direct_message` has no self-sender check, so self-message
suppression does not hold on every inbound path. -/
theorem self_suppression_counterexample :
    sampleSelfMsg.sender_id = sampleNetState.node_id
    ∧ (handle_direct sampleNetState 0 "node_a" sampleSelfMsg).2 = [sampleSelfMsg] := by
  constructor
  · rfl
  · decide

/-- C5 amended: on the broadcast path a node never invokes a handler for
its own envelope — `_handle_broadcast_message` discards any message whose
sender id equals the node's own id, leaving the state unchanged. -/
theorem self_broadcast_suppressed (s : NetLayerState) (now : Int) (md : MsgData)
    (h : md.sender_id = s.node_id) :
    handle_broadcast s now md = (s, []) := by
  unfold handle_broadcast
  rw [if_pos h]

/-- Witness for C5's amended theorem. -/
theorem self_broadcast_suppressed_witness :
    handle_broadcast sampleNetState 0 sampleSelfMsg = (sampleNetState, []) :=
  self_broadcast_suppressed sampleNetState 0 sampleSelfMsg rfl

theorem select_none_iff (E : ECDSAModel) (sk : Nat) (s : DNetState)
    (activePeerIds : List String) (roundNumber : Nat) (lastBlockHash : String)
    (now : Int) :
    select_distance_generator E sk s activePeerIds roundNumber lastBlockHash now = none
      ↔ (get_active_nodes s activePeerIds).length < MIN_NODES := by
  unfold select_distance_generator
  by_cases h : (get_active_nodes s activePeerIds).length < MIN_NODES
  · simp [h]
  · simp [h]

/-- C4: `select_distance_generator` returns no result exactly when the
active-node set has fewer than `MIN_NODES` elements, returns the generated
proposal whenever it has at least `MIN_NODES`, and whether a result is
returned depends only on the active-node set (any two states with the same
active-node set agree on the outcome), not on call order. -/
theorem select_distance_generator_gating (E : ECDSAModel) (sk : Nat) (s : DNetState)
    (activePeerIds : List String) (roundNumber : Nat) (lastBlockHash : String)
    (now : Int) :
    (select_distance_generator E sk s activePeerIds roundNumber lastBlockHash now = none
      ↔ (get_active_nodes s activePeerIds).length < MIN_NODES)
    ∧ (MIN_NODES ≤ (get_active_nodes s activePeerIds).length →
        select_distance_generator E sk s activePeerIds roundNumber lastBlockHash now
          = some (generate_distance_proposal E sk s.local_node_id roundNumber lastBlockHash now))
    ∧ (∀ (s2 : DNetState) (peerIds2 : List String),
        get_active_nodes s2 peerIds2 = get_active_nodes s activePeerIds →
        (select_distance_generator E sk s2 peerIds2 roundNumber lastBlockHash now = none ↔
          select_distance_generator E sk s activePeerIds roundNumber lastBlockHash now = none)) := by
  refine ⟨select_none_iff E sk s activePeerIds roundNumber lastBlockHash now, ?_, ?_⟩
  · intro hge
    unfold select_distance_generator
    rw [if_neg (by omega)]
  · intro s2 peerIds2 hact
    rw [select_none_iff, select_none_iff, hact]

/-- Witness for C4: a single-node state at or above the minimum returns a
proposal; the same state with the gate condition evaluated concretely. -/
theorem select_distance_generator_gating_witness :
    select_distance_generator toyECDSA 7 (initialDNet "node_a") [] 1 "genesis" 0
      = some (generate_distance_proposal toyECDSA 7 "node_a" 1 "genesis" 0) :=
  (select_distance_generator_gating toyECDSA 7 (initialDNet "node_a") [] 1 "genesis" 0).2.1
    (by decide)

theorem dnet_local_mem (s : DNetState) (hs : DNetReachable s) :
    (⟨s.local_node_id, true⟩ : NodeRec) ∈ s.nodes := by
  induction hs with
  | init localId => simp [initialDNet]
  | add s0 nodeId hs0 ih =>
    unfold add_node
    by_cases h : s0.nodes.any (fun n => n.node_id = nodeId)
    · rw [if_pos h]; exact ih
    · rw [if_neg h]
      exact List.mem_append_left _ ih
  | remove s0 nodeId hs0 ih =>
    unfold remove_node
    by_cases h : nodeId = s0.local_node_id
    · rw [if_pos h]; exact ih
    · rw [if_neg h]
      refine List.mem_filter.mpr ⟨ih, ?_⟩
      simp only [decide_eq_true_eq]
      exact fun hc => h hc.symm

/-- C10: in every reachable `DecentralizedNetwork` state the active-node
list contains the local node and is therefore non-empty; since
`MIN_NODES = 1`, the insufficient-active-nodes branch of
`select_distance_generator` is unreachable and the call never returns the
no-result outcome. -/
theorem local_node_always_active (s : DNetState) (hs : DNetReachable s)
    (activePeerIds : List String) (E : ECDSAModel) (sk : Nat) (roundNumber : Nat)
    (lastBlockHash : String) (now : Int) :
    (⟨s.local_node_id, true⟩ : NodeRec) ∈ get_active_nodes s activePeerIds
    ∧ (get_active_nodes s activePeerIds).length ≠ 0
    ∧ MIN_NODES = 1
    ∧ select_distance_generator E sk s activePeerIds roundNumber lastBlockHash now ≠ none := by
  have hmem := dnet_local_mem s hs
  have hact : (⟨s.local_node_id, true⟩ : NodeRec) ∈ get_active_nodes s activePeerIds :=
    List.mem_filter.mpr ⟨hmem, by simp⟩
  have hlen : (get_active_nodes s activePeerIds).length ≠ 0 := by
    intro h0
    rw [List.length_eq_zero] at h0
    rw [h0] at hact
    exact absurd hact (List.not_mem_nil _)
  refine ⟨hact, hlen, rfl, ?_⟩
  intro hnone
  have hlt := (select_none_iff E sk s activePeerIds roundNumber lastBlockHash now).mp hnone
  have : MIN_NODES = 1 := rfl
  omega

/-- Witness for C10: the freshly-constructed network (local node only)
already returns a proposal. -/
theorem local_node_always_active_witness :
    select_distance_generator toyECDSA 7 (initialDNet "node_a") [] 1 "genesis" 0 ≠ none :=
  (local_node_always_active (initialDNet "node_a") (DNetReachable.init "node_a")
    [] toyECDSA 7 1 "genesis" 0).2.2.2

end Bikera
